import Mathlib

/-!
Shallow embedding of the TYC-AI-Briefs-Backend serverless handlers:
the worker (`api/process-job.js`), the status endpoint (`api/status.js`),
the job-queue upload endpoint and the chat endpoint, together with the
JSON value model used for the summarization-service response bodies.
External collaborators (job store, blob store, PDF/Word extraction, the
summarization service) are oracles supplied in each handler environment;
the handlers' control flow, header setting, job-record updates and
response shaping are translated line by line from the source.
-/

deriving instance DecidableEq for Except

namespace TYC

/-- Job status column values used by the pipeline. -/
inductive Status where
  | pending
  | processing
  | done
  | failed
deriving DecidableEq, Repr

/-- A row of the `jobs` table as the worker reads it
(`select * ... eq status pending`). `created_at` is an abstract
timestamp ordered as the ISO strings are. -/
structure Job where
  id : String
  filename : String
  path : String
  status : Status
  created_at : Nat
deriving DecidableEq, Repr

/-- A parsed JSON value, the result of `await resp.json()`. -/
inductive Json where
  | null
  | bool (b : Bool)
  | num (n : Int)
  | str (s : String)
  | arr (elems : List Json)
  | obj (fields : List (String × Json))

mutual

/-- `JSON.stringify` on a parsed JSON value (string escaping elided). -/
def stringify : Json → String
  | .null => "null"
  | .bool b => if b then "true" else "false"
  | .num n => Int.repr n
  | .str s => "\"" ++ s ++ "\""
  | .arr xs => "[" ++ stringifyElems xs ++ "]"
  | .obj fs => "\x7b" ++ stringifyFields fs ++ "\x7d"

/-- Comma-separated serialization of array elements. -/
def stringifyElems : List Json → String
  | [] => ""
  | [j] => stringify j
  | j :: rest => stringify j ++ "," ++ stringifyElems rest

/-- Comma-separated serialization of object fields. -/
def stringifyFields : List (String × Json) → String
  | [] => ""
  | [(k, j)] => "\"" ++ k ++ "\":" ++ stringify j
  | (k, j) :: rest => "\"" ++ k ++ "\":" ++ stringify j ++ "," ++ stringifyFields rest

end

/-- JS property access `j.k` on a parsed JSON value: defined only on
objects, `undefined` (`none`) otherwise. -/
def getField (j : Json) (k : String) : Option Json :=
  match j with
  | .obj fs => fs.lookup k
  | _ => none

/-- `json.choices && json.choices[0] && json.choices[0].message &&
json.choices[0].message.content`, yielding the content string when the
whole chain is defined and the content is a string. -/
def contentOf (j : Json) : Option String :=
  match getField j "choices" with
  | some (.arr (c0 :: _)) =>
    match getField c0 "message" with
    | some m =>
      match getField m "content" with
      | some (.str s) => some s
      | _ => none
    | none => none
  | _ => none

/-- `(json.choices...content) || JSON.stringify(json)`: the content when
it is truthy (a non-empty string), otherwise the serialized body. -/
def briefOf (j : Json) : String :=
  match contentOf j with
  | some c => if c = "" then stringify j else c
  | none => stringify j

/-- JS truthiness of an optional string (`undefined` and `""` are falsy). -/
def jsTruthy : Option String → Bool
  | some s => !s.isEmpty
  | none => false

/-- JS `a || b` for an optional string `a` and default `b`. -/
def jsOr (a : Option String) (b : String) : String :=
  match a with
  | some s => if s.isEmpty then b else s
  | none => b

/-- JS `x || null` used by the status handler on nullable columns. -/
def orNull (o : Option String) : Option String :=
  if jsTruthy o then o else none

/-- JS `split(".")` over the character list: the groups between the
dots, in order, at least one group always present. -/
def splitDot : List Char → List (List Char)
  | [] => [[]]
  | c :: rest =>
    match splitDot rest with
    | [] => [[]]
    | g :: gs => if c = '.' then [] :: g :: gs else (c :: g) :: gs

/-- `filename.split(".").pop().toLowerCase()`: the last dot-separated
group of the filename, lowercased. -/
def extOf (name : String) : String :=
  ⟨((splitDot name.data).getLastD []).map Char.toLower⟩

/-- JS `String.prototype.trim`: strips leading and trailing whitespace. -/
def jsTrim (s : String) : String :=
  ⟨((s.data.dropWhile Char.isWhitespace).reverse.dropWhile
      Char.isWhitespace).reverse⟩

/-- The three extraction branches of the worker's `if`/`else if`/`else`
on the extension. -/
inductive ExtractMethod where
  | pdf
  | word
  | fallbackPdf
deriving DecidableEq, Repr

/-- The extension dispatch: `ext === "pdf"` selects PDF extraction,
`ext === "docx" || ext === "doc"` Word extraction, anything else the
best-effort PDF fallback. -/
def dispatch (ext : String) : ExtractMethod :=
  if ext = "pdf" then .pdf
  else if ext = "docx" ∨ ext = "doc" then .word
  else .fallbackPdf

/-- Runs the chosen extraction branch. `pdf` and `word` are the library
oracles on the downloaded buffer: `.ok text` when the parser returns,
`.error e` when it throws. In the fallback branch a throw is caught and
the text set to `""`; in the other two branches a throw propagates. -/
def runExtract (m : ExtractMethod) (pdf : Except String String)
    (word : Except String String) : Except String String :=
  match m with
  | .pdf => pdf
  | .word => word
  | .fallbackPdf =>
    match pdf with
    | .ok t => .ok t
    | .error _ => .ok ""

/-- Field set passed to a `jobs` table `update` call. Every update in
the worker also sets `updated_at` (recorded by `touches_updated_at`). -/
structure UpdateFields where
  status : Status
  error : Option String
  brief : Option String
  touches_updated_at : Bool
deriving DecidableEq, Repr

/-- Observable side effects of a handler invocation, in program order:
job-table writes and reads, blob-store traffic, extraction, and calls
to the summarization service. -/
inductive Event where
  | update (id : String) (fields : UpdateFields)
  | download (path : String)
  | extract (method : ExtractMethod) (text : Option String)
  | openaiCall (prompt : String)
  | storagePut (bucket : String) (key : String)
  | insertJob (id : String) (filename : String) (path : String)
      (status : Status) (created_at : Nat)
  | readJob (id : String)
deriving DecidableEq, Repr

/-- Whether an event writes to the job table or blob store. -/
def Event.isMutation : Event → Bool
  | .update _ _ => true
  | .insertJob _ _ _ _ _ => true
  | .storagePut _ _ => true
  | _ => false

/-- Whether an event is a call to the summarization service. -/
def Event.isCall : Event → Bool
  | .openaiCall _ => true
  | _ => false

/-- Whether an event is one of the worker's long-running steps
(blob download, text extraction, or the summarization call). -/
def Event.isLongRunning : Event → Bool
  | .download _ => true
  | .extract _ _ => true
  | .openaiCall _ => true
  | _ => false

/-- JSON response bodies produced by the handlers. -/
inductive Body where
  | empty
  | errMsg (e : String)
  | noPending
  | processed (jobId : String)
  | uploadOk (jobId : String)
  | statusRow (id : String) (status : String) (brief : Option String)
      (error : Option String) (updated_at : Option String)
  | answer (a : String)
deriving DecidableEq, Repr

/-- Whether a body carries a chat answer. -/
def Body.isAnswer : Body → Bool
  | .answer _ => true
  | _ => false

/-- An HTTP response: status code, headers set via `res.setHeader`, body. -/
structure Response where
  status : Nat
  headers : List (String × String)
  body : Body
deriving DecidableEq, Repr

/-- One worker invocation result: the HTTP response and the effect trace. -/
abbrev HandlerResult := Response × List Event

/-- Accumulator step for the pending-job query: keep the pending job
with the strictly smaller `created_at`, earlier rows winning ties, which
is what `order by created_at ascending` over the table yields. -/
def olderPending (acc : Option Job) (j : Job) : Option Job :=
  if j.status = Status.pending then
    match acc with
    | none => some j
    | some b => if j.created_at < b.created_at then some j else some b
  else acc

/-- `from jobs select * where status = pending order by created_at asc
limit 1` over the current table contents. -/
def selectOldestPending (jobs : List Job) : Option Job :=
  jobs.foldl olderPending none

/-- The fixed worker prompt template with the extracted text truncated
to 12000 characters (`extractedText.slice(0, 12000)`). -/
def workerPrompt (text : String) : String :=
  "You are a legal assistant that writes concise law-school-ready case briefs. Structure the brief with headings: Facts, Issues, Holding, Ratio/Reasoning, Short Analysis. Be concise and use plain English. \n\nText:\n"
    ++ text.take 12000

/-- The summarization-service response as the worker observes it:
`ok` is `resp.ok`, `errText` the error body text read on failure
(`""` when reading it threw), `body` the parsed JSON on success. -/
structure OpenAIResp where
  ok : Bool
  errText : String
  body : Json

/-- Environment of one worker invocation: the `jobs` table contents, a
flag for a failing pending-job query, the configured CORS origin, the
blob-store download oracle, the two extraction-library oracles, and the
summarization-service response. -/
structure WorkerEnv where
  origin : String
  jobs : List Job
  fetchErr : Bool
  download : String → Except String String
  pdfParse : String → Except String String
  mammoth : String → Except String String
  openai : OpenAIResp

/-- CORS headers the worker sets on every response. -/
def workerHeaders (origin : String) : List (String × String) :=
  [("Access-Control-Allow-Origin", origin),
   ("Access-Control-Allow-Methods", "GET, OPTIONS")]

/-- The worker pipeline after a job has been claimed and marked
`processing`: download, extract, blank-text check, summarization call,
final update — lines 38..90 of `api/process-job.js`. -/
def afterClaim (env : WorkerEnv) (hs : List (String × String))
    (job : Job) : HandlerResult :=
  let ev1 := Event.update job.id ⟨Status.processing, none, none, true⟩
  match env.download job.path with
  | .error e =>
    (⟨500, hs, .errMsg "download failed"⟩,
     [ev1, .download job.path,
      .update job.id ⟨Status.failed, some e, none, true⟩])
  | .ok buf =>
    let m := dispatch (extOf job.filename)
    match runExtract m (env.pdfParse buf) (env.mammoth buf) with
    | .error _ =>
      (⟨500, hs, .errMsg "worker error"⟩,
       [ev1, .download job.path, .extract m none])
    | .ok text =>
      let evs := [ev1, .download job.path, .extract m (some text)]
      if text.isEmpty || (jsTrim text).isEmpty then
        (⟨200, hs, .errMsg "no text extracted"⟩,
         evs ++ [.update job.id ⟨Status.failed, some "no text extracted", none, true⟩])
      else
        let prompt := workerPrompt text
        if env.openai.ok then
          (⟨200, hs, .processed job.id⟩,
           evs ++ [.openaiCall prompt,
                   .update job.id ⟨Status.done, none, some (briefOf env.openai.body), true⟩])
        else
          (⟨500, hs, .errMsg "OpenAI call failed"⟩,
           evs ++ [.openaiCall prompt,
                   .update job.id ⟨Status.failed, some env.openai.errText, none, true⟩])

/-- The worker handler `api/process-job.js`: CORS headers, preflight,
pending-job query (one job, oldest `created_at`), claim, then the
pipeline of `afterClaim`. -/
def processJob (env : WorkerEnv) (method : String) : HandlerResult :=
  let hs := workerHeaders env.origin
  if method = "OPTIONS" then (⟨204, hs, .empty⟩, [])
  else if env.fetchErr then (⟨500, hs, .errMsg "job fetch failed"⟩, [])
  else
    match selectOldestPending env.jobs with
    | none => (⟨200, hs, .noPending⟩, [])
    | some job => afterClaim env hs job

/-- The uploaded file object as formidable delivers it. -/
structure UploadFile where
  originalFilename : Option String
  newFilename : Option String
deriving DecidableEq, Repr

/-- Environment of one upload invocation: configured CORS origin, the
form-parse outcome (`parseErr` / the file, `none` when absent), the
`Date.now()` value, the fresh UUID, and the storage/insert outcomes. -/
structure UploadEnv where
  origin : String
  parseErr : Bool
  file : Option UploadFile
  now : Nat
  uuid : String
  storageErr : Bool
  insertErr : Bool

/-- CORS headers the upload handler sets on every response. -/
def uploadHeaders (origin : String) : List (String × String) :=
  [("Access-Control-Allow-Origin", origin),
   ("Access-Control-Allow-Methods", "POST, OPTIONS"),
   ("Access-Control-Allow-Headers", "Content-Type")]

/-- The job-queue upload handler: preflight, method check, form parse,
file check, `jobId = "job-" + randomUUID()`,
`filename = originalFilename || newFilename || "upload-" + Date.now()`,
`key = jobId + "/" + filename`, storage upload into bucket `uploads`,
then insert of one `jobs` row with status `pending`, returning
`{ jobId }`. -/
def upload (env : UploadEnv) (method : String) : HandlerResult :=
  let hs := uploadHeaders env.origin
  if method = "OPTIONS" then (⟨204, hs, .empty⟩, [])
  else if method ≠ "POST" then (⟨405, hs, .errMsg "Method not allowed"⟩, [])
  else if env.parseErr then (⟨400, hs, .errMsg "Invalid upload"⟩, [])
  else
    match env.file with
    | none => (⟨400, hs, .errMsg "No file uploaded"⟩, [])
    | some f =>
      let jobId := "job-" ++ env.uuid
      let filename := jsOr f.originalFilename
        (jsOr f.newFilename ("upload-" ++ Nat.repr env.now))
      let key := jobId ++ "/" ++ filename
      if env.storageErr then
        (⟨500, hs, .errMsg "Storage upload failed"⟩,
         [.storagePut "uploads" key])
      else if env.insertErr then
        (⟨500, hs, .errMsg "Job create failed"⟩,
         [.storagePut "uploads" key,
          .insertJob jobId filename key Status.pending env.now])
      else
        (⟨200, hs, .uploadOk jobId⟩,
         [.storagePut "uploads" key,
          .insertJob jobId filename key Status.pending env.now])

/-- The row the status handler selects:
`select id, status, brief, error, updated_at`. -/
structure StatusRow where
  id : String
  status : String
  brief : Option String
  error : Option String
  updated_at : Option String
deriving DecidableEq, Repr

/-- Outcome of the status handler's `.single()` lookup: the row, a
no-row-found error (unknown job id), or any other query failure. -/
inductive LookupResult where
  | found (r : StatusRow)
  | notFound
  | dbError
deriving DecidableEq, Repr

/-- Environment of one status invocation. -/
structure StatusEnv where
  origin : String
  jobId : Option String
  lookup : LookupResult

/-- CORS headers the status handler sets on every response. -/
def statusHeaders (origin : String) : List (String × String) :=
  [("Access-Control-Allow-Origin", origin),
   ("Access-Control-Allow-Methods", "GET, OPTIONS")]

/-- The status handler `api/status.js`: preflight, method check, jobId
presence check, single-row lookup; any lookup error (including the
no-row case of `.single()`) yields the same 500 body, a found row the
`id/status/brief||null/error||null/updated_at||null` projection. -/
def statusHandler (env : StatusEnv) (method : String) : HandlerResult :=
  let hs := statusHeaders env.origin
  if method = "OPTIONS" then (⟨204, hs, .empty⟩, [])
  else if method ≠ "GET" then (⟨405, hs, .errMsg "Method not allowed"⟩, [])
  else if !jsTruthy env.jobId then (⟨400, hs, .errMsg "jobId required"⟩, [])
  else
    let jid := jsOr env.jobId ""
    match env.lookup with
    | .found r =>
      (⟨200, hs, .statusRow r.id r.status (orNull r.brief) (orNull r.error)
          (orNull r.updated_at)⟩,
       [.readJob jid])
    | .notFound => (⟨500, hs, .errMsg "status lookup failed"⟩, [.readJob jid])
    | .dbError => (⟨500, hs, .errMsg "status lookup failed"⟩, [.readJob jid])

/-- Environment of one chat invocation: whether the JSON body parsed
(and destructured), its `userMessage` and `brief` fields, and the
upstream chat-completion response. -/
structure ChatEnv where
  parseOk : Bool
  parseErrMsg : String
  userMessage : Option String
  briefText : Option String
  upstreamOk : Bool
  upstreamBody : Json

/-- The chat user prompt:
`Brief:\n(brief || "(brief not provided)")\n\nUser question: ...`. -/
def chatPrompt (briefText : Option String) (userMessage : String) : String :=
  "Brief:\n" ++ jsOr briefText "(brief not provided)"
    ++ "\n\nUser question: " ++ userMessage
    ++ "\n\nAnswer concisely and cite the brief section you used."

/-- The chat handler (`api/chat.js`): rejects non-POST with 405 (it sets
no CORS headers and has no preflight branch), parses the JSON body
(a throw is caught and answered 500), rejects a falsy `userMessage` with
400 before any upstream call, then calls the summarization service; a
non-success upstream response is a 500 with no answer, success returns
`{ answer: content || "" }`. -/
def chat (env : ChatEnv) (method : String) : HandlerResult :=
  if method ≠ "POST" then (⟨405, [], .errMsg "Method not allowed"⟩, [])
  else if !env.parseOk then (⟨500, [], .errMsg env.parseErrMsg⟩, [])
  else if !jsTruthy env.userMessage then
    (⟨400, [], .errMsg "Missing userMessage"⟩, [])
  else
    let prompt := chatPrompt env.briefText (jsOr env.userMessage "")
    if env.upstreamOk then
      (⟨200, [], .answer (jsOr (contentOf env.upstreamBody) "")⟩,
       [.openaiCall prompt])
    else
      (⟨500, [], .errMsg "OpenAI chat failed"⟩, [.openaiCall prompt])

/-! ## Concrete sample inputs used by the witnesses -/

/-- A summarization response body with a non-empty message content. -/
def sampleContentBody : Json :=
  Json.obj [("choices", Json.arr [Json.obj [("message",
    Json.obj [("content", Json.str "THE BRIEF")])]])]

/-- A summarization response body with no message content. -/
def sampleNoContentBody : Json :=
  Json.obj [("error", Json.str "rate limited"), ("code", Json.num 429)]

def jobPdf : Job := ⟨"job-a", "case.pdf", "job-a/case.pdf", Status.pending, 10⟩

def jobWord : Job := ⟨"job-b", "older.docx", "job-b/older.docx", Status.pending, 5⟩

def jobDone : Job := ⟨"job-c", "done.pdf", "job-c/done.pdf", Status.done, 1⟩

/-- A worker environment whose oldest pending job is `jobWord` and in
which every external call succeeds. -/
def wEnv : WorkerEnv :=
  { origin := "https://traceyourcase.example"
    jobs := [jobPdf, jobWord, jobDone]
    fetchErr := false
    download := fun _ => Except.ok "BUF"
    pdfParse := fun _ => Except.ok "pdf text"
    mammoth := fun _ => Except.ok "word text"
    openai := ⟨true, "", sampleContentBody⟩ }

/-- A worker environment whose claimed job extracts to whitespace only. -/
def wEnvBlank : WorkerEnv := { wEnv with mammoth := fun _ => Except.ok "   " }

/-- A worker environment whose summarization call fails. -/
def wEnvFail : WorkerEnv :=
  { wEnv with openai := ⟨false, "upstream error body", Json.null⟩ }

/-- Forgets the payload of a successful extraction library call,
`none` marking a thrown exception. -/
def exceptToOption : Except String String → Option String
  | .ok t => some t
  | .error _ => none

/-- Whether an event is a `jobs` table insert. -/
def Event.isInsert : Event → Bool
  | .insertJob _ _ _ _ _ => true
  | _ => false

/-- A parsed upload file with an original filename. -/
def sampleFile : UploadFile := ⟨some "Case.pdf", some "nf.pdf"⟩

/-- An upload environment in which everything succeeds. -/
def uEnvOk : UploadEnv := ⟨"*", false, some sampleFile, 123, "UUID1", false, false⟩

/-- A found status row for the witness. -/
def sampleRow : StatusRow :=
  ⟨"job-1", "done", some "THE BRIEF", none, some "2024-01-01T00:00:00Z"⟩

/-- A status environment whose lookup finds `sampleRow`. -/
def sEnvFound : StatusEnv := ⟨"*", some "job-1", .found sampleRow⟩

/-- A chat environment with a missing `userMessage`. -/
def cEnvMissing : ChatEnv := ⟨true, "boom", none, some "B", true, Json.null⟩

/-- A chat environment used for the preflight counterexample. -/
def cEnvPreflight : ChatEnv := ⟨true, "boom", some "q", none, true, Json.null⟩

/-! ## Properties of the pending-job selection -/

theorem olderPending_none (j : Job) (hp : j.status = Status.pending) :
    olderPending none j = some j := by
  simp [olderPending, hp]

theorem olderPending_some (b j : Job) (hp : j.status = Status.pending) :
    olderPending (some b) j =
      if j.created_at < b.created_at then some j else some b := by
  simp [olderPending, hp]

theorem olderPending_skip (acc : Option Job) (j : Job)
    (hp : j.status ≠ Status.pending) : olderPending acc j = acc := by
  simp [olderPending, hp]

theorem foldl_olderPending_eq_none {jobs : List Job} :
    ∀ {acc : Option Job}, jobs.foldl olderPending acc = none →
      acc = none ∧ ∀ j ∈ jobs, j.status ≠ Status.pending := by
  induction jobs with
  | nil =>
    intro acc h
    exact ⟨h, by simp⟩
  | cons j js ih =>
    intro acc h
    simp only [List.foldl_cons] at h
    obtain ⟨h1, h2⟩ := ih h
    by_cases hp : j.status = Status.pending
    · exfalso
      cases acc with
      | none => rw [olderPending_none j hp] at h1; exact Option.noConfusion h1
      | some b =>
        rw [olderPending_some b j hp] at h1
        by_cases hlt : j.created_at < b.created_at
        · rw [if_pos hlt] at h1; exact Option.noConfusion h1
        · rw [if_neg hlt] at h1; exact Option.noConfusion h1
    · refine ⟨?_, ?_⟩
      · rwa [olderPending_skip acc j hp] at h1
      · intro k hk
        rcases List.mem_cons.mp hk with hk | hk
        · rw [hk]; exact hp
        · exact h2 k hk

theorem foldl_olderPending_mem {jobs : List Job} :
    ∀ {acc : Option Job} {c : Job}, jobs.foldl olderPending acc = some c →
      acc = some c ∨ (c ∈ jobs ∧ c.status = Status.pending) := by
  induction jobs with
  | nil =>
    intro acc c h
    exact Or.inl h
  | cons j js ih =>
    intro acc c h
    simp only [List.foldl_cons] at h
    rcases ih h with h1 | h1
    · by_cases hp : j.status = Status.pending
      · cases acc with
        | none =>
          rw [olderPending_none j hp] at h1
          cases h1
          exact Or.inr ⟨List.mem_cons_self _ _, hp⟩
        | some b =>
          rw [olderPending_some b j hp] at h1
          by_cases hlt : j.created_at < b.created_at
          · rw [if_pos hlt] at h1
            cases h1
            exact Or.inr ⟨List.mem_cons_self _ _, hp⟩
          · rw [if_neg hlt] at h1
            exact Or.inl h1
      · rw [olderPending_skip acc j hp] at h1
        exact Or.inl h1
    · exact Or.inr ⟨List.mem_cons_of_mem _ h1.1, h1.2⟩

theorem foldl_olderPending_min {jobs : List Job} :
    ∀ {acc : Option Job} {c : Job}, jobs.foldl olderPending acc = some c →
      (∀ b, acc = some b → c.created_at ≤ b.created_at) ∧
      (∀ k ∈ jobs, k.status = Status.pending →
        c.created_at ≤ k.created_at) := by
  induction jobs with
  | nil =>
    intro acc c h
    simp only [List.foldl_nil] at h
    refine ⟨?_, by simp⟩
    intro b hb
    rw [h] at hb
    cases hb
    exact Nat.le_refl _
  | cons j js ih =>
    intro acc c h
    simp only [List.foldl_cons] at h
    obtain ⟨ih1, ih2⟩ := ih h
    by_cases hp : j.status = Status.pending
    · have hstep : ∀ b, acc = some b → c.created_at ≤ b.created_at := by
        intro b hb
        subst hb
        rw [olderPending_some b j hp] at ih1
        by_cases hlt : j.created_at < b.created_at
        · have := ih1 j (by rw [if_pos hlt])
          omega
        · exact ih1 b (by rw [if_neg hlt])
      have hj : c.created_at ≤ j.created_at := by
        cases hacc : acc with
        | none =>
          subst hacc
          exact ih1 j (olderPending_none j hp)
        | some b =>
          subst hacc
          rw [olderPending_some b j hp] at ih1
          by_cases hlt : j.created_at < b.created_at
          · exact ih1 j (by rw [if_pos hlt])
          · have := ih1 b (by rw [if_neg hlt])
            omega
      refine ⟨hstep, ?_⟩
      intro k hk hkp
      rcases List.mem_cons.mp hk with hk | hk
      · rw [hk]; exact hj
      · exact ih2 k hk hkp
    · have haccpre : ∀ b, acc = some b → c.created_at ≤ b.created_at := by
        intro b hb
        apply ih1
        rw [olderPending_skip acc j hp, hb]
      refine ⟨haccpre, ?_⟩
      intro k hk hkp
      rcases List.mem_cons.mp hk with hk | hk
      · rw [hk] at hkp; exact absurd hkp hp
      · exact ih2 k hk hkp

/-- Specification of the pending-job query: the selected job is a
pending row of the table with minimal `created_at`. -/
theorem selectOldestPending_spec {jobs : List Job} {c : Job}
    (h : selectOldestPending jobs = some c) :
    c ∈ jobs ∧ c.status = Status.pending ∧
      ∀ k ∈ jobs, k.status = Status.pending →
        c.created_at ≤ k.created_at := by
  unfold selectOldestPending at h
  rcases foldl_olderPending_mem h with h1 | h1
  · exact Option.noConfusion h1
  · exact ⟨h1.1, h1.2, (foldl_olderPending_min h).2⟩

/-- When a pending row exists the query returns a job. -/
theorem selectOldestPending_isSome {jobs : List Job} {j : Job}
    (hj : j ∈ jobs) (hp : j.status = Status.pending) :
    (selectOldestPending jobs).isSome := by
  cases hsel : selectOldestPending jobs with
  | some c => rfl
  | none =>
    exfalso
    exact (foldl_olderPending_eq_none hsel).2 j hj hp

/-- A GET invocation of the worker reduces to the pending-job query
followed by the claimed-job pipeline. -/
theorem processJob_get_eq (env : WorkerEnv) (hf : env.fetchErr = false) :
    processJob env "GET" =
      match selectOldestPending env.jobs with
      | none => (⟨200, workerHeaders env.origin, Body.noPending⟩, [])
      | some job => afterClaim env (workerHeaders env.origin) job := by
  simp [processJob, hf]

/-- Every mutation in the claimed-job pipeline is an update of the
claimed job's id. -/
theorem afterClaim_mutations (env : WorkerEnv)
    (hs : List (String × String)) (job : Job) :
    ∀ e ∈ (afterClaim env hs job).2, e.isMutation = true →
      ∃ f, e = Event.update job.id f := by
  intro e he hm
  unfold afterClaim at he
  rcases hdl : env.download job.path with e' | buf <;> rw [hdl] at he
  · simp only [List.mem_cons, List.not_mem_nil, or_false] at he
    rcases he with he | he | he <;> subst he
    · exact ⟨_, rfl⟩
    · simp [Event.isMutation] at hm
    · exact ⟨_, rfl⟩
  · rcases hx : runExtract (dispatch (extOf job.filename)) (env.pdfParse buf)
        (env.mammoth buf) with e' | text <;>
      simp only [hx] at he
    · simp only [List.mem_cons, List.not_mem_nil, or_false] at he
      rcases he with he | he | he <;> subst he
      · exact ⟨_, rfl⟩
      · simp [Event.isMutation] at hm
      · simp [Event.isMutation] at hm
    · by_cases hb : (text.isEmpty || (jsTrim text).isEmpty) = true
      · rw [if_pos hb] at he
        simp only [List.cons_append, List.nil_append,
          List.mem_cons, List.not_mem_nil, or_false] at he
        rcases he with he | he | he | he <;> subst he
        · exact ⟨_, rfl⟩
        · simp [Event.isMutation] at hm
        · simp [Event.isMutation] at hm
        · exact ⟨_, rfl⟩
      · rw [if_neg hb] at he
        by_cases hok : env.openai.ok = true
        · rw [if_pos hok] at he
          simp only [List.cons_append, List.nil_append,
            List.mem_cons, List.not_mem_nil, or_false] at he
          rcases he with he | he | he | he | he <;> subst he <;>
            first
              | exact ⟨_, rfl⟩
              | simp [Event.isMutation] at hm
        · rw [if_neg hok] at he
          simp only [List.cons_append, List.nil_append,
            List.mem_cons, List.not_mem_nil, or_false] at he
          rcases he with he | he | he | he | he <;> subst he <;>
            first
              | exact ⟨_, rfl⟩
              | simp [Event.isMutation] at hm

/-! ## Serialized JSON is never the empty string -/

theorem toDigitsCore_length_le (b : Nat) :
    ∀ (f n : Nat) (ds : List Char),
      ds.length ≤ (Nat.toDigitsCore b f n ds).length := by
  intro f
  induction f with
  | zero => intro n ds; simp [Nat.toDigitsCore]
  | succ f ih =>
    intro n ds
    unfold Nat.toDigitsCore
    by_cases h : n / b = 0
    · simp [h]
    · rw [if_neg h]
      calc ds.length ≤ (Nat.digitChar (n % b) :: ds).length := by simp
        _ ≤ _ := ih (n / b) _

theorem natRepr_length_pos (n : Nat) : 0 < (Nat.repr n).length := by
  unfold Nat.repr Nat.toDigits
  show 0 < (List.asString _).length
  unfold List.asString
  show 0 < (Nat.toDigitsCore 10 (n + 1) n []).length
  unfold Nat.toDigitsCore
  by_cases h : n / 10 = 0
  · simp [h]
  · rw [if_neg h]
    calc 0 < (Nat.digitChar (n % 10) :: ([] : List Char)).length := by simp
      _ ≤ _ := toDigitsCore_length_le 10 n (n / 10) _

theorem natRepr_ne_empty (n : Nat) : Nat.repr n ≠ "" := by
  intro h
  have hl := natRepr_length_pos n
  rw [h] at hl
  simp [String.length] at hl

theorem intRepr_ne_empty (n : Int) : Int.repr n ≠ "" := by
  cases n with
  | ofNat m =>
    show Nat.repr m ≠ ""
    exact natRepr_ne_empty m
  | negSucc m =>
    show "-" ++ Nat.repr (m + 1) ≠ ""
    intro h
    have hl := congrArg String.length h
    rw [String.length_append] at hl
    have hpos := natRepr_length_pos (m + 1)
    have h1 : ("-" : String).length = 1 := rfl
    have h0 : ("" : String).length = 0 := rfl
    rw [h1, h0] at hl
    omega

/-- `JSON.stringify` of a parsed JSON value is never the empty string. -/
theorem stringify_ne_empty (j : Json) : stringify j ≠ "" := by
  cases j with
  | null => rw [stringify]; decide
  | bool b => cases b <;> (rw [stringify]; decide)
  | num n =>
    rw [stringify]
    exact intRepr_ne_empty n
  | str s =>
    intro h
    rw [stringify] at h
    have hl := congrArg String.length h
    rw [String.length_append, String.length_append] at hl
    have h1 : ("\"" : String).length = 1 := rfl
    have h0 : ("" : String).length = 0 := rfl
    rw [h1, h0] at hl
    omega
  | arr xs =>
    intro h
    rw [stringify] at h
    have hl := congrArg String.length h
    rw [String.length_append, String.length_append] at hl
    have h1 : ("[" : String).length = 1 := rfl
    have h2 : ("]" : String).length = 1 := rfl
    have h0 : ("" : String).length = 0 := rfl
    rw [h1, h2, h0] at hl
    omega
  | obj fs =>
    intro h
    rw [stringify] at h
    have hl := congrArg String.length h
    rw [String.length_append, String.length_append] at hl
    have h1 : ("\x7b" : String).length = 1 := rfl
    have h2 : ("\x7d" : String).length = 1 := rfl
    have h0 : ("" : String).length = 0 := rfl
    rw [h1, h2, h0] at hl
    omega

/-- The brief the worker stores on success is never the empty string. -/
theorem briefOf_ne_empty (j : Json) : briefOf j ≠ "" := by
  unfold briefOf
  cases hc : contentOf j with
  | none => exact stringify_ne_empty j
  | some c =>
    show (if c = "" then stringify j else c) ≠ ""
    by_cases h : c = ""
    · rw [if_pos h]; exact stringify_ne_empty j
    · rw [if_neg h]; exact h





/-- C1: the worker handler, per invocation, selects exactly one pending
job — one with the earliest `created_at` among jobs whose status is
`pending`, every state change of the invocation touching only that job —
and if no pending job exists it performs no state change and returns a
no-op result. -/
theorem C1_worker_selects_oldest_pending (env : WorkerEnv)
    (hf : env.fetchErr = false) :
    ((∀ j ∈ env.jobs, j.status ≠ Status.pending) →
      processJob env "GET" =
        (⟨200, workerHeaders env.origin, Body.noPending⟩, []))
    ∧
    (∀ j ∈ env.jobs, j.status = Status.pending →
      (selectOldestPending env.jobs).isSome)
    ∧
    (∀ c, selectOldestPending env.jobs = some c →
      c ∈ env.jobs ∧ c.status = Status.pending ∧
      (∀ k ∈ env.jobs, k.status = Status.pending →
        c.created_at ≤ k.created_at) ∧
      (∀ e ∈ (processJob env "GET").2, e.isMutation = true →
        ∃ f, e = Event.update c.id f)) := by
  refine ⟨?_, ?_, ?_⟩
  · intro hnone
    rw [processJob_get_eq env hf]
    cases hsel : selectOldestPending env.jobs with
    | none => rfl
    | some c =>
      exfalso
      obtain ⟨hmem, hp, _⟩ := selectOldestPending_spec hsel
      exact hnone c hmem hp
  · intro j hj hp
    exact selectOldestPending_isSome hj hp
  · intro c hsel
    obtain ⟨hmem, hp, hmin⟩ := selectOldestPending_spec hsel
    refine ⟨hmem, hp, hmin, ?_⟩
    rw [processJob_get_eq env hf, hsel]
    exact afterClaim_mutations env (workerHeaders env.origin) c

/-- Witness for C1 at a table whose only job is already `done`. -/
theorem C1_witness :
    processJob { wEnv with jobs := [jobDone] } "GET" =
      (⟨200, workerHeaders { wEnv with jobs := [jobDone] }.origin,
        Body.noPending⟩, []) :=
  (C1_worker_selects_oldest_pending { wEnv with jobs := [jobDone] } rfl).1
    (by decide)

/-- C2: for every job the worker claims, the very first effect of the
invocation — before the blob download, the text extraction and the
summarization call — is the update setting the claimed job's status to
`processing` with `updated_at` refreshed. -/
theorem C2_marks_processing_before_long_steps (env : WorkerEnv) (c : Job)
    (hf : env.fetchErr = false)
    (hsel : selectOldestPending env.jobs = some c) :
    ∃ rest,
      (processJob env "GET").2 =
        Event.update c.id ⟨Status.processing, none, none, true⟩ :: rest := by
  rw [processJob_get_eq env hf, hsel]
  unfold afterClaim
  rcases hdl : env.download c.path with er | buf <;> simp only [hdl]
  · exact ⟨_, rfl⟩
  · rcases hx : runExtract (dispatch (extOf c.filename)) (env.pdfParse buf)
        (env.mammoth buf) with er | text <;> simp only [hx]
    · exact ⟨_, rfl⟩
    · by_cases hb : (text.isEmpty || (jsTrim text).isEmpty) = true
      · rw [if_pos hb]
        exact ⟨_, rfl⟩
      · rw [if_neg hb]
        by_cases hok : env.openai.ok = true
        · rw [if_pos hok]
          exact ⟨_, rfl⟩
        · rw [if_neg hok]
          exact ⟨_, rfl⟩

/-- Witness for C2: in `wEnv` the claimed job is `jobWord` and the trace
starts with its `processing` update. -/
theorem C2_witness :
    ∃ rest,
      (processJob wEnv "GET").2 =
        Event.update jobWord.id ⟨Status.processing, none, none, true⟩ :: rest :=
  C2_marks_processing_before_long_steps wEnv jobWord rfl (by decide)

/-- C3: for every claimed job whose extracted text is empty or
whitespace-only, the worker marks the job `failed` with the non-empty
error message `no text extracted`, makes no summarization call, and
marks no job `done`. -/
theorem C3_blank_extraction_fails_without_call (env : WorkerEnv) (c : Job)
    (buf text : String)
    (hf : env.fetchErr = false)
    (hsel : selectOldestPending env.jobs = some c)
    (hdl : env.download c.path = Except.ok buf)
    (hx : runExtract (dispatch (extOf c.filename)) (env.pdfParse buf)
      (env.mammoth buf) = Except.ok text)
    (hb : (text.isEmpty || (jsTrim text).isEmpty) = true) :
    Event.update c.id ⟨Status.failed, some "no text extracted", none, true⟩
        ∈ (processJob env "GET").2
    ∧ ("no text extracted" : String) ≠ ""
    ∧ (∀ e ∈ (processJob env "GET").2, e.isCall = false)
    ∧ (∀ e ∈ (processJob env "GET").2, ∀ i f, e = Event.update i f →
        f.status ≠ Status.done) := by
  rw [processJob_get_eq env hf, hsel]
  unfold afterClaim
  simp only [hdl, hx, if_pos hb]
  refine ⟨by simp, by decide, ?_, ?_⟩
  · intro e he
    simp only [List.cons_append, List.nil_append, List.mem_cons,
      List.not_mem_nil, or_false] at he
    rcases he with he | he | he | he <;> subst he <;> rfl
  · intro e he i f hef hdone
    simp only [List.cons_append, List.nil_append, List.mem_cons,
      List.not_mem_nil, or_false] at he
    rcases he with he | he | he | he <;> subst he <;>
      first
        | exact Event.noConfusion hef
        | (cases hef; simp at hdone)


/-- Witness for C3: in `wEnvBlank` the claimed `jobWord` extracts to
`"   "` and the invocation fails the job without calling the service. -/
theorem C3_witness :
    Event.update jobWord.id ⟨Status.failed, some "no text extracted", none, true⟩
        ∈ (processJob wEnvBlank "GET").2
    ∧ ("no text extracted" : String) ≠ ""
    ∧ (∀ e ∈ (processJob wEnvBlank "GET").2, e.isCall = false)
    ∧ (∀ e ∈ (processJob wEnvBlank "GET").2, ∀ i f, e = Event.update i f →
        f.status ≠ Status.done) :=
  C3_blank_extraction_fails_without_call wEnvBlank jobWord "BUF" "   "
    rfl (by decide) rfl (by decide) (by decide)

/-- C4: for every claimed job, when the summarization service answers
with a non-success response, the worker marks the job `failed` storing
the upstream error body as the job's `error` field, and the handler
returns a 500 server error to the caller. -/
theorem C4_upstream_failure_marks_failed (env : WorkerEnv) (c : Job)
    (buf text : String)
    (hf : env.fetchErr = false)
    (hsel : selectOldestPending env.jobs = some c)
    (hdl : env.download c.path = Except.ok buf)
    (hx : runExtract (dispatch (extOf c.filename)) (env.pdfParse buf)
      (env.mammoth buf) = Except.ok text)
    (hb : (text.isEmpty || (jsTrim text).isEmpty) = false)
    (hok : env.openai.ok = false) :
    Event.update c.id ⟨Status.failed, some env.openai.errText, none, true⟩
        ∈ (processJob env "GET").2
    ∧ (processJob env "GET").1 =
        ⟨500, workerHeaders env.origin, Body.errMsg "OpenAI call failed"⟩ := by
  rw [processJob_get_eq env hf, hsel]
  unfold afterClaim
  simp only [hdl, hx]
  rw [if_neg (by simp [hb]), if_neg (by simp [hok])]
  exact ⟨by simp, rfl⟩


/-- Witness for C4: the failed upstream call in `wEnvFail` stores the
upstream error body on `jobWord` and yields a 500. -/
theorem C4_witness :
    Event.update jobWord.id
        ⟨Status.failed, some wEnvFail.openai.errText, none, true⟩
        ∈ (processJob wEnvFail "GET").2
    ∧ (processJob wEnvFail "GET").1 =
        ⟨500, workerHeaders wEnvFail.origin, Body.errMsg "OpenAI call failed"⟩ :=
  C4_upstream_failure_marks_failed wEnvFail jobWord "BUF" "word text"
    rfl (by decide) rfl (by decide) (by decide) rfl


/-- The downloaded blob is extracted with the method the extension
dispatch chooses, and the extract event carries the text that branch
yields. -/
theorem afterClaim_extract_mem (env : WorkerEnv)
    (hs : List (String × String)) (job : Job) (buf : String)
    (hdl : env.download job.path = Except.ok buf) :
    Event.extract (dispatch (extOf job.filename))
        (exceptToOption (runExtract (dispatch (extOf job.filename))
          (env.pdfParse buf) (env.mammoth buf)))
      ∈ (afterClaim env hs job).2 := by
  unfold afterClaim
  simp only [hdl]
  rcases hx : runExtract (dispatch (extOf job.filename)) (env.pdfParse buf)
      (env.mammoth buf) with er | text <;> simp only [hx, exceptToOption]
  · simp
  · by_cases hb : (text.isEmpty || (jsTrim text).isEmpty) = true
    · rw [if_pos hb]; simp
    · rw [if_neg hb]
      by_cases hok : env.openai.ok = true
      · rw [if_pos hok]; simp
      · rw [if_neg hok]; simp

/-- C9: for every claimed job the extraction method is chosen by the
filename's extension — `pdf` uses PDF extraction, `doc`/`docx` Word
extraction, and any other extension attempts best-effort PDF extraction,
yielding empty text when that attempt throws. -/
theorem C9_extraction_dispatched_by_extension (env : WorkerEnv) (c : Job)
    (buf : String)
    (hf : env.fetchErr = false)
    (hsel : selectOldestPending env.jobs = some c)
    (hdl : env.download c.path = Except.ok buf) :
    (extOf c.filename = "pdf" →
      Event.extract ExtractMethod.pdf (exceptToOption (env.pdfParse buf))
        ∈ (processJob env "GET").2)
    ∧ ((extOf c.filename = "docx" ∨ extOf c.filename = "doc") →
      Event.extract ExtractMethod.word (exceptToOption (env.mammoth buf))
        ∈ (processJob env "GET").2)
    ∧ (extOf c.filename ≠ "pdf" → extOf c.filename ≠ "docx" →
        extOf c.filename ≠ "doc" →
      (∀ t, env.pdfParse buf = Except.ok t →
        Event.extract ExtractMethod.fallbackPdf (some t)
          ∈ (processJob env "GET").2)
      ∧ (∀ er, env.pdfParse buf = Except.error er →
        Event.extract ExtractMethod.fallbackPdf (some "")
          ∈ (processJob env "GET").2)) := by
  rw [processJob_get_eq env hf, hsel]
  have hmem := afterClaim_extract_mem env (workerHeaders env.origin) c buf hdl
  refine ⟨?_, ?_, ?_⟩
  · intro hext
    have hm : dispatch (extOf c.filename) = ExtractMethod.pdf := by
      simp [dispatch, hext]
    rw [hm] at hmem
    simpa only [runExtract] using hmem
  · intro hext
    have hm : dispatch (extOf c.filename) = ExtractMethod.word := by
      rcases hext with hext | hext <;> simp [dispatch, hext]
    rw [hm] at hmem
    simpa only [runExtract] using hmem
  · intro h1 h2 h3
    have hm : dispatch (extOf c.filename) = ExtractMethod.fallbackPdf := by
      simp [dispatch, h1, h2, h3]
    rw [hm] at hmem
    constructor
    · intro t ht
      rw [ht] at hmem
      simpa only [runExtract, exceptToOption] using hmem
    · intro er her
      rw [her] at hmem
      simpa only [runExtract, exceptToOption] using hmem

/-- Witness for C9: `jobWord` has extension `docx`, so the Word
extractor's text appears in the extract event. -/
theorem C9_witness :
    Event.extract ExtractMethod.word (exceptToOption (wEnv.mammoth "BUF"))
      ∈ (processJob wEnv "GET").2 :=
  (C9_extraction_dispatched_by_extension wEnv jobWord "BUF"
    rfl (by decide) rfl).2.1 (Or.inl (by decide))

/-- In the claimed-job pipeline, the only `done` update stores
`briefOf` of the summarization response body as the brief. -/
theorem afterClaim_done_brief (env : WorkerEnv)
    (hs : List (String × String)) (job : Job) :
    ∀ e ∈ (afterClaim env hs job).2, ∀ i f, e = Event.update i f →
      f.status = Status.done →
      f.brief = some (briefOf env.openai.body) := by
  intro e he i f hef hdone
  unfold afterClaim at he
  rcases hdl : env.download job.path with er | buf <;> rw [hdl] at he
  · simp only [List.mem_cons, List.not_mem_nil, or_false] at he
    rcases he with he | he | he <;> subst he <;>
      first
        | exact Event.noConfusion hef
        | (cases hef; simp at hdone)
  · rcases hx : runExtract (dispatch (extOf job.filename))
        (env.pdfParse buf) (env.mammoth buf) with er | text <;>
      simp only [hx] at he
    · simp only [List.mem_cons, List.not_mem_nil, or_false] at he
      rcases he with he | he | he <;> subst he <;>
        first
          | exact Event.noConfusion hef
          | (cases hef; simp at hdone)
    · by_cases hb : (text.isEmpty || (jsTrim text).isEmpty) = true
      · rw [if_pos hb] at he
        simp only [List.cons_append, List.nil_append, List.mem_cons,
          List.not_mem_nil, or_false] at he
        rcases he with he | he | he | he <;> subst he <;>
          first
            | exact Event.noConfusion hef
            | (cases hef; simp at hdone)
      · rw [if_neg hb] at he
        by_cases hok : env.openai.ok = true
        · rw [if_pos hok] at he
          simp only [List.cons_append, List.nil_append, List.mem_cons,
            List.not_mem_nil, or_false] at he
          rcases he with he | he | he | he | he <;> subst he <;>
            first
              | exact Event.noConfusion hef
              | (cases hef; rfl)
              | (cases hef; simp at hdone)
        · rw [if_neg hok] at he
          simp only [List.cons_append, List.nil_append, List.mem_cons,
            List.not_mem_nil, or_false] at he
          rcases he with he | he | he | he | he <;> subst he <;>
            first
              | exact Event.noConfusion hef
              | (cases hef; simp at hdone)

/-- C10: whenever the worker marks a job `done`, the brief it stores is
`briefOf` of the summarization response body, which is never the empty
string; when the response carries no (or an empty) message content, that
brief is the JSON serialization of the whole response body. -/
theorem C10_done_brief_nonempty (env : WorkerEnv) (method : String) :
    (∀ e ∈ (processJob env method).2, ∀ i f, e = Event.update i f →
      f.status = Status.done →
      f.brief = some (briefOf env.openai.body))
    ∧ briefOf env.openai.body ≠ ""
    ∧ (contentOf env.openai.body = none →
        briefOf env.openai.body = stringify env.openai.body)
    ∧ (contentOf env.openai.body = some "" →
        briefOf env.openai.body = stringify env.openai.body) := by
  refine ⟨?_, briefOf_ne_empty _, ?_, ?_⟩
  · intro e he i f hef hdone
    by_cases hm : method = "OPTIONS"
    · rw [hm] at he
      simp [processJob] at he
    · by_cases hferr : env.fetchErr = true
      · simp [processJob, hm, hferr] at he
      · have hf : env.fetchErr = false := by
          cases hfe : env.fetchErr
          · rfl
          · exact absurd hfe hferr
        rw [show processJob env method =
            (match selectOldestPending env.jobs with
              | none =>
                (⟨200, workerHeaders env.origin, Body.noPending⟩, [])
              | some job =>
                afterClaim env (workerHeaders env.origin) job)
          from by simp [processJob, hm, hf]] at he
        cases hsel : selectOldestPending env.jobs with
        | none => rw [hsel] at he; simp at he
        | some job =>
          rw [hsel] at he
          exact afterClaim_done_brief env (workerHeaders env.origin) job
            e he i f hef hdone
  · intro h
    unfold briefOf
    rw [h]
  · intro h
    unfold briefOf
    rw [h]
    simp

/-- Witness for C10 at a response body without message content. -/
theorem C10_witness :
    briefOf sampleNoContentBody = stringify sampleNoContentBody
    ∧ briefOf sampleNoContentBody ≠ "" :=
  ⟨(C10_done_brief_nonempty { wEnv with
        openai := ⟨true, "", sampleNoContentBody⟩ } "GET").2.2.1 (by decide),
   (C10_done_brief_nonempty { wEnv with
        openai := ⟨true, "", sampleNoContentBody⟩ } "GET").2.1⟩

/-! ## The upload, status and chat claims -/


/-- C5: every accepted upload (POST whose form parse yields a file and
whose storage write and metadata insert succeed) creates exactly one
`jobs` row with status `pending`, stores the blob at the key derived
from the fresh job identifier plus the original filename, returns the
job identifier in a 200 response, and never calls the summarization
service. -/
theorem C5_accepted_upload_creates_pending_job (env : UploadEnv)
    (f : UploadFile) (name : String)
    (hp : env.parseErr = false)
    (hfile : env.file = some f)
    (hname : f.originalFilename = some name)
    (hne : name.isEmpty = false)
    (hstore : env.storageErr = false)
    (hins : env.insertErr = false) :
    upload env "POST" =
      (⟨200, uploadHeaders env.origin, Body.uploadOk ("job-" ++ env.uuid)⟩,
       [Event.storagePut "uploads" ("job-" ++ env.uuid ++ "/" ++ name),
        Event.insertJob ("job-" ++ env.uuid) name
          ("job-" ++ env.uuid ++ "/" ++ name) Status.pending env.now])
    ∧ (upload env "POST").2.filter Event.isInsert =
        [Event.insertJob ("job-" ++ env.uuid) name
          ("job-" ++ env.uuid ++ "/" ++ name) Status.pending env.now]
    ∧ (∀ e ∈ (upload env "POST").2, e.isCall = false) := by
  have hA : upload env "POST" =
      (⟨200, uploadHeaders env.origin, Body.uploadOk ("job-" ++ env.uuid)⟩,
       [Event.storagePut "uploads" ("job-" ++ env.uuid ++ "/" ++ name),
        Event.insertJob ("job-" ++ env.uuid) name
          ("job-" ++ env.uuid ++ "/" ++ name) Status.pending env.now]) := by
    unfold upload
    rw [if_neg (by decide), if_neg (by decide)]
    rw [if_neg (by simp [hp])]
    rw [hfile]
    dsimp only
    rw [if_neg (by simp [hstore]), if_neg (by simp [hins])]
    rw [hname]
    simp [jsOr, hne]
  refine ⟨hA, ?_, ?_⟩
  · rw [hA]
    simp [Event.isInsert, List.filter]
  · rw [hA]
    intro e he
    simp only [List.mem_cons, List.not_mem_nil, or_false] at he
    rcases he with he | he <;> subst he <;> rfl



/-- Witness for C5 at a successful upload of `Case.pdf`. -/
theorem C5_witness :
    upload uEnvOk "POST" =
      (⟨200, uploadHeaders uEnvOk.origin, Body.uploadOk ("job-" ++ uEnvOk.uuid)⟩,
       [Event.storagePut "uploads" ("job-" ++ uEnvOk.uuid ++ "/" ++ "Case.pdf"),
        Event.insertJob ("job-" ++ uEnvOk.uuid) "Case.pdf"
          ("job-" ++ uEnvOk.uuid ++ "/" ++ "Case.pdf")
          Status.pending uEnvOk.now]) :=
  (C5_accepted_upload_creates_pending_job uEnvOk sampleFile "Case.pdf"
    rfl rfl rfl rfl rfl rfl).1

/-- C6: the status handler performs no state mutation; on a found row it
returns the row's id, status, brief-or-null, error-or-null and
updated_at-or-null; an unknown job id (`notFound`) and a lookup failure
(`dbError`) produce the identical 500 server-error response, with no
distinction between the two. -/
theorem C6_status_readonly_and_errors (env : StatusEnv) (method : String) :
    (∀ e ∈ (statusHandler env method).2, e.isMutation = false)
    ∧ (∀ r, env.lookup = LookupResult.found r →
        jsTruthy env.jobId = true →
        (statusHandler env "GET").1 =
          ⟨200, statusHeaders env.origin,
            Body.statusRow r.id r.status (orNull r.brief) (orNull r.error)
              (orNull r.updated_at)⟩)
    ∧ statusHandler { env with lookup := LookupResult.notFound } method =
        statusHandler { env with lookup := LookupResult.dbError } method
    ∧ (jsTruthy env.jobId = true →
        (statusHandler { env with lookup := LookupResult.notFound } "GET").1 =
          ⟨500, statusHeaders env.origin, Body.errMsg "status lookup failed"⟩) := by
  refine ⟨?_, ?_, ?_, ?_⟩
  · intro e he
    unfold statusHandler at he
    by_cases h1 : method = "OPTIONS"
    · rw [if_pos h1] at he; simp at he
    · rw [if_neg h1] at he
      by_cases h2 : method ≠ "GET"
      · rw [if_pos h2] at he; simp at he
      · rw [if_neg h2] at he
        by_cases h3 : (!jsTruthy env.jobId) = true
        · rw [if_pos h3] at he; simp at he
        · rw [if_neg h3] at he
          cases hl : env.lookup with
          | found r =>
            rw [hl] at he
            simp only [List.mem_cons, List.not_mem_nil, or_false] at he
            subst he; rfl
          | notFound =>
            rw [hl] at he
            simp only [List.mem_cons, List.not_mem_nil, or_false] at he
            subst he; rfl
          | dbError =>
            rw [hl] at he
            simp only [List.mem_cons, List.not_mem_nil, or_false] at he
            subst he; rfl
  · intro r hl hjid
    unfold statusHandler
    rw [if_neg (by decide), if_neg (by decide), if_neg (by simp [hjid]), hl]
  · unfold statusHandler
    dsimp only
  · intro hjid
    unfold statusHandler
    rw [if_neg (by decide), if_neg (by decide), if_neg (by simp [hjid])]



/-- Witness for C6 on a found row. -/
theorem C6_witness :
    (statusHandler sEnvFound "GET").1 =
      ⟨200, statusHeaders sEnvFound.origin,
        Body.statusRow sampleRow.id sampleRow.status (orNull sampleRow.brief)
          (orNull sampleRow.error) (orNull sampleRow.updated_at)⟩ :=
  (C6_status_readonly_and_errors sEnvFound "GET").2.1 sampleRow rfl rfl

/-- C7: the chat handler answers an empty or missing `userMessage` with
a 400 client error and makes no upstream call at all; when the upstream
call fails, it answers a 500 server error whose body carries no partial
answer. -/
theorem C7_chat_rejects_empty_message (env : ChatEnv)
    (hp : env.parseOk = true) :
    (jsTruthy env.userMessage = false →
      (chat env "POST").1.status = 400 ∧ (chat env "POST").2 = [])
    ∧ (jsTruthy env.userMessage = true → env.upstreamOk = false →
      (chat env "POST").1 = ⟨500, [], Body.errMsg "OpenAI chat failed"⟩
      ∧ (chat env "POST").1.body.isAnswer = false) := by
  constructor
  · intro hmsg
    unfold chat
    rw [if_neg (by decide), if_neg (by simp [hp]), if_pos (by simp [hmsg])]
    exact ⟨rfl, rfl⟩
  · intro hmsg hup
    unfold chat
    rw [if_neg (by decide), if_neg (by simp [hp]), if_neg (by simp [hmsg]),
      if_neg (by simp [hup])]
    exact ⟨rfl, rfl⟩


/-- Witness for C7 at a missing `userMessage`. -/
theorem C7_witness :
    (chat cEnvMissing "POST").1.status = 400
    ∧ (chat cEnvMissing "POST").2 = [] :=
  (C7_chat_rejects_empty_message cEnvMissing rfl).1 rfl

/-! ## The CORS claim (C8) -/

theorem upload_headers_all (env : UploadEnv) (method : String) :
    (upload env method).1.headers = uploadHeaders env.origin := by
  unfold upload
  dsimp only
  repeat' split
  all_goals rfl

theorem statusHandler_headers_all (env : StatusEnv) (method : String) :
    (statusHandler env method).1.headers = statusHeaders env.origin := by
  unfold statusHandler
  dsimp only
  repeat' split
  all_goals rfl

theorem processJob_headers_all (env : WorkerEnv) (method : String) :
    (processJob env method).1.headers = workerHeaders env.origin := by
  unfold processJob afterClaim
  dsimp only
  repeat' split
  all_goals rfl

theorem chat_headers_all (env : ChatEnv) (method : String) :
    (chat env method).1.headers = [] := by
  unfold chat
  dsimp only
  repeat' split
  all_goals rfl


/-- C8 counterexample: the chat endpoint answers an OPTIONS preflight
with 405 — not 204 — and sets no allowed-origin, allow-methods or
allow-headers header at all. -/
theorem C8_counterexample :
    (chat cEnvPreflight "OPTIONS").1.status = 405
    ∧ ¬ (chat cEnvPreflight "OPTIONS").1.status = 204
    ∧ (chat cEnvPreflight "OPTIONS").1.headers = [] := by
  refine ⟨rfl, by decide, rfl⟩

/-- C8 (amended): the upload handler answers OPTIONS with 204 and sets
allowed-origin, allow-methods and allow-headers headers on every
response; the status and worker handlers answer OPTIONS with 204 and set
allowed-origin and allow-methods on every response but never an
allow-headers header; the chat handler sets no CORS headers and answers
OPTIONS with 405. -/
theorem C8_cors_preflight_amended :
    (∀ env : UploadEnv, (upload env "OPTIONS").1.status = 204)
    ∧ (∀ (env : UploadEnv) (method : String),
        (upload env method).1.headers = uploadHeaders env.origin
        ∧ (uploadHeaders env.origin).lookup "Access-Control-Allow-Origin"
            = some env.origin
        ∧ (uploadHeaders env.origin).lookup "Access-Control-Allow-Methods"
            = some "POST, OPTIONS"
        ∧ (uploadHeaders env.origin).lookup "Access-Control-Allow-Headers"
            = some "Content-Type")
    ∧ (∀ env : StatusEnv, (statusHandler env "OPTIONS").1.status = 204)
    ∧ (∀ (env : StatusEnv) (method : String),
        (statusHandler env method).1.headers = statusHeaders env.origin
        ∧ (statusHeaders env.origin).lookup "Access-Control-Allow-Origin"
            = some env.origin
        ∧ (statusHeaders env.origin).lookup "Access-Control-Allow-Methods"
            = some "GET, OPTIONS"
        ∧ (statusHeaders env.origin).lookup "Access-Control-Allow-Headers"
            = none)
    ∧ (∀ env : WorkerEnv, (processJob env "OPTIONS").1.status = 204)
    ∧ (∀ (env : WorkerEnv) (method : String),
        (processJob env method).1.headers = workerHeaders env.origin
        ∧ (workerHeaders env.origin).lookup "Access-Control-Allow-Headers"
            = none)
    ∧ (∀ env : ChatEnv, (chat env "OPTIONS").1.status = 405
        ∧ (chat env "OPTIONS").1.headers = []) := by
  refine ⟨fun env => rfl, ?_, fun env => rfl, ?_, fun env => rfl, ?_,
    fun env => ⟨rfl, rfl⟩⟩
  · intro env method
    exact ⟨upload_headers_all env method, rfl, rfl, rfl⟩
  · intro env method
    exact ⟨statusHandler_headers_all env method, rfl, rfl, rfl⟩
  · intro env method
    exact ⟨processJob_headers_all env method, rfl⟩

end TYC
